import Mathlib

/-!
Shallow embedding of `tools/dfu.py` (the ODrive DFU flashing tool): the
flash-layout descriptor parsing and sector planning done by `load_sectors`,
and the device-driving operations `set_alternate_safe`, `erase` and `flash`,
together with proofs of the specification's claims about them.

Machine integers of the source are Python arbitrary-precision integers, so they
are modelled by `Int`/`Nat` directly.  Failure (`ValueError`/`KeyError`
propagating out of the generator, `RuntimeError`/`TimeoutError` from the device
loop) is modelled with `Option`/sum results.
-/

namespace Dfu

/-! ### Python string and integer primitives used by the source

`name.split('/')`, `layout.split(',')` and `sector[:-2].split('*')` are Python
`str.split` with a one-character separator; `int(addr, 0)` and `int(x)` are
Python integer parsing (base 0 auto-detects a `0x`/`0o`/`0b` prefix, an
optional sign is allowed, underscores may separate digits, surrounding
whitespace is stripped).  The models below cover ASCII inputs, which are the
only inputs the descriptor grammar and the claims exercise. -/

/-- Python `s.split(c)` for a single-character separator `c`:
no collapsing of adjacent separators, `"".split(c) = [""]`. -/
def splitOnChar (c : Char) : List Char → List (List Char)
  | [] => [[]]
  | x :: xs =>
    if x = c then [] :: splitOnChar c xs
    else
      match splitOnChar c xs with
      | [] => [[x]]
      | y :: ys => (x :: y) :: ys

/-- Value of one ASCII digit character, hex digits included. -/
def digitVal (c : Char) : Option Nat :=
  if '0' ≤ c ∧ c ≤ '9' then some (c.toNat - '0'.toNat)
  else if 'a' ≤ c ∧ c ≤ 'f' then some (c.toNat - 'a'.toNat + 10)
  else if 'A' ≤ c ∧ c ≤ 'F' then some (c.toNat - 'A'.toNat + 10)
  else none

/-- Digit run in the given base, allowing a single `_` between two digits
(Python's numeric-literal underscore rule).  The accumulator carries the value
of the digits already consumed.  The run may not start with `_`; that is
enforced by the wrapper `parseDigits`. -/
def digitsAux (base : Nat) : List Char → Nat → Option Nat
  | [], acc => some acc
  | '_' :: c :: rest, acc =>
    match digitVal c with
    | some d => if d < base then digitsAux base rest (acc * base + d) else none
    | none => none
  | [c], acc =>
    match digitVal c with
    | some d => if d < base then some (acc * base + d) else none
    | none => none
  | c :: c2 :: rest, acc =>
    match digitVal c with
    | some d => if d < base then digitsAux base (c2 :: rest) (acc * base + d) else none
    | none => none

/-- A nonempty digit run in the given base: must start with a digit,
underscores only between digits. -/
def parseDigits (base : Nat) (cs : List Char) : Option Nat :=
  match cs with
  | [] => none
  | c :: _ => if (digitVal c).isSome then digitsAux base cs 0 else none

/-- Digit run after a `0x`/`0o`/`0b` prefix: Python additionally allows one
underscore directly after the prefix (`int("0x_10", 0) = 16`). -/
def parseDigitsAfterPrefix (base : Nat) (cs : List Char) : Option Nat :=
  match cs with
  | '_' :: rest => parseDigits base rest
  | _ => parseDigits base cs

/-- The ASCII whitespace Python strips around an integer literal. -/
def isPySpace (c : Char) : Bool :=
  c = ' ' || c = '\t' || c = '\n' || c = '\r' || c.toNat = 11 || c.toNat = 12

/-- Strip whitespace from both ends. -/
def stripWs (cs : List Char) : List Char :=
  ((cs.dropWhile isPySpace).reverse.dropWhile isPySpace).reverse

/-- Consume one optional leading sign; `true` means negative. -/
def stripSign : List Char → Bool × List Char
  | '+' :: cs => (false, cs)
  | '-' :: cs => (true, cs)
  | cs => (false, cs)

/-- Python `int(s)` in a fixed base (used with base 10 for
`map(int, sector[:-2].split('*'))`): optional whitespace, optional sign,
nonempty digit run.  Leading zeros are allowed in a fixed base. -/
def pyIntBase (base : Nat) (cs : List Char) : Option Int :=
  let (neg, ds) := stripSign (stripWs cs)
  match parseDigits base ds with
  | some n => some (if neg then -(n : Int) else (n : Int))
  | none => none

/-- All-zero digit run (underscores allowed): Python accepts `"0"`, `"00"`,
`"0_0"` in base 0 but rejects any base-0 decimal literal with a leading zero
and a nonzero value. -/
def zerosOnly (cs : List Char) : Option Nat :=
  match parseDigits 10 cs with
  | some n => if n = 0 then some 0 else none
  | none => none

/-- Python `int(s, 0)` (used for the descriptor's address field):
auto-detected base from a `0x`/`0o`/`0b` prefix, otherwise decimal with no
leading zeros (except a run of zeros denoting 0); sign and surrounding
whitespace allowed. -/
def pyInt0 (cs : List Char) : Option Int :=
  let (neg, ds) := stripSign (stripWs cs)
  let mag : Option Nat :=
    match ds with
    | '0' :: b :: rest =>
      if b = 'x' ∨ b = 'X' then parseDigitsAfterPrefix 16 rest
      else if b = 'o' ∨ b = 'O' then parseDigitsAfterPrefix 8 rest
      else if b = 'b' ∨ b = 'B' then parseDigitsAfterPrefix 2 rest
      else zerosOnly ('0' :: b :: rest)
    | _ => parseDigits 10 ds
  match mag with
  | some n => some (if neg then -(n : Int) else (n : Int))
  | none => none

/-- Python `str.upper()` on the one-character unit tag (ASCII uppercasing). -/
def pyUpper (c : Char) : Char := c.toUpper

/-- `SIZE_MULTIPLIERS = {' ': 1, 'K': 1024, 'M': 1024*1024}` (dfu.py line 21);
a missing key (`KeyError`) is `none`. -/
def SIZE_MULTIPLIERS (c : Char) : Option Nat :=
  if c = ' ' then some 1
  else if c = 'K' then some 1024
  else if c = 'M' then some (1024 * 1024)
  else none

/-- `TRANSFER_SIZE = 2048` (dfu.py line 22). -/
def TRANSFER_SIZE : Nat := 2048

/-- One sector spec of the layout field (dfu.py lines 39-41):
`repeat, size = map(int, sector[:-2].split('*'))`,
`size *= SIZE_MULTIPLIERS[sector[-2].upper()]`, `mode = sector[-1]`.
Returns `(repeat, size in bytes, mode)`; any `ValueError`/`KeyError` is
`none`. -/
def parseSectorSpec (s : List Char) : Option (Int × Int × Char) :=
  match splitOnChar '*' (s.dropLast.dropLast) with
  | [rcs, scs] =>
    match pyIntBase 10 rcs, pyIntBase 10 scs with
    | some rep, some sizeRaw =>
      match s.dropLast.getLast?, s.getLast? with
      | some u, some m =>
        match SIZE_MULTIPLIERS (pyUpper u) with
        | some mult => some (rep, sizeRaw * (mult : Int), m)
        | none => none
      | _, _ => none
    | _, _ => none
  | _ => none

/-- All sector specs of the layout field in order; the first malformed spec
raises, failing the whole parse. -/
def parseSpecs : List (List Char) → Option (List (Int × Int × Char))
  | [] => some []
  | s :: rest =>
    match parseSectorSpec s, parseSpecs rest with
    | some g, some gs => some (g :: gs)
    | _, _ => none

/-- One alternate's descriptor string (dfu.py lines 35-41):
`label, addr, layout = name.split('/')`, `addr = int(addr, 0)`, and every
comma-separated sector spec parsed by `parseSectorSpec`.  Returns
`(label, base address, sector groups)`. -/
def parseName (name : String) : Option (String × Int × List (Int × Int × Char)) :=
  match splitOnChar '/' name.data with
  | [labelCs, addrCs, layoutCs] =>
    match pyInt0 addrCs with
    | some addr =>
      match parseSpecs (splitOnChar ',' layoutCs) with
      | some groups => some (String.mk labelCs, addr, groups)
      | none => none
    | none => none
  | _ => none

/-! ### The hex-file collaborator and the sector planner (dfu.py lines 25-63) -/

/-- The external IntelHex collaborator, as used by `load_sectors`:
`hexfile.segments()` is the list of populated `(start, endExclusive)` ranges,
and `byteAt a` is the populated byte at address `a` (`none` where the image
has no data; `tobinarray` then substitutes the default padding 0xFF). -/
structure HexFile where
  segments : List (Int × Int)
  byteAt : Int → Option Nat

/-- `hexfile.tobinarray(start, end)`: the bytes from `start` to `endIncl`
(inclusive), each missing byte replaced by the padding value 0xFF.  An empty
range (`endIncl < start`) gives an empty array. -/
def tobinarray (hf : HexFile) (start endIncl : Int) : List Nat :=
  (List.range (endIncl - start + 1).toNat).map
    (fun i : Nat => (hf.byteAt (start + (i : Int))).getD 0xFF)

/-- The overlap test of dfu.py lines 45-51: a sector at `addr` of the given
`size` is touched when some segment `(start, end)` satisfies
`start < addr and end > addr` or `start >= addr and start < addr + size`. -/
def touched (segs : List (Int × Int)) (addr size : Int) : Bool :=
  segs.any fun p =>
    (decide (p.1 < addr) && decide (p.2 > addr)) ||
    (decide (p.1 ≥ addr) && decide (p.1 < addr + size))

/-- One yielded sector dict (dfu.py lines 56-60): `{'alt': .., 'addr': ..,
'data': ..}`. -/
structure PlannedSector where
  alt : Nat
  addr : Int
  data : List Nat
deriving DecidableEq, Repr

/-- The `while repeat > 0` loop of dfu.py lines 43-63 for one sector group:
`n` is the remaining repeat count (`repeat.toNat`, since the loop runs only
while `repeat > 0`) and `addr` the address cursor; each iteration tests the
overlap, yields a sector dict when touched with
`hexfile.tobinarray(addr, addr + size - 1)` as data, and advances the cursor
by `size` regardless of overlap. -/
def planGroup (hf : HexFile) (alt : Nat) (size : Int) : Nat → Int → List PlannedSector
  | 0, _ => []
  | n + 1, addr =>
    (if touched hf.segments addr size then
      [⟨alt, addr, tobinarray hf addr (addr + size - 1)⟩]
    else []) ++ planGroup hf alt size n (addr + size)

/-- The `for sector in layout.split(',')` loop of dfu.py lines 38-63 over the
already-parsed `(repeat, size, mode)` groups of one alternate, threading the
address cursor from the layout's base address.  The access-mode tag is parsed
but not used (the source's TODO leaves writability unverified). -/
def planGroups (hf : HexFile) (alt : Nat) : Int → List (Int × Int × Char) → List PlannedSector
  | _, [] => []
  | addr, (rep, size, _mode) :: rest =>
    planGroup hf alt size rep.toNat addr ++
      planGroups hf alt (addr + size * (rep.toNat : Int)) rest

/-- `load_sectors(dfudev, hexfile)` (dfu.py lines 25-63), with
`dfudev.alternates()` supplied as the list of `(name, alt)` pairs and the
generator consumed eagerly (the caller does `list(load_sectors(...))`, so any
`ValueError`/`KeyError` raised while parsing discards the whole run: `none`). -/
def load_sectors (alternates : List (String × Nat)) (hf : HexFile) : Option (List PlannedSector) :=
  match alternates with
  | [] => some []
  | (name, alt) :: rest =>
    match parseName name with
    | some (_label, addr, groups) =>
      match load_sectors rest hf with
      | some ps => some (planGroups hf alt addr groups ++ ps)
      | none => none
    | none => none

/-- The full expansion of one group: every `(cursor address, size)` pair the
`while repeat > 0` loop visits, touched or not. -/
def expandGroup (size : Int) : Nat → Int → List (Int × Int)
  | 0, _ => []
  | n + 1, addr => (addr, size) :: expandGroup size n (addr + size)

/-- The full expansion of a layout's groups (group order, each group repeated
`repeat.toNat` times), threading the cursor exactly as `planGroups` does. -/
def layoutSectors : Int → List (Int × Int × Char) → List (Int × Int)
  | _, [] => []
  | addr, (rep, size, _mode) :: rest =>
    expandGroup size rep.toNat addr ++
      layoutSectors (addr + size * (rep.toNat : Int)) rest

/-! ### The DFU device model and the orchestration loops (dfu.py lines 65-99)

The device transport (`dfuse.DfuDevice`) is an external collaborator.  Its
command side is modelled as an event log, and its two observations
(`get_state()` and `wait_while_state(...)`) as an oracle indexed by the number
of calls made so far; a `wait_while_state` response of `none` models the
collaborator raising `TimeoutError`.  A device status is the tuple the source
indexes as `status[1]` for the state, modelled as `(status code, state)`. -/

/-- `dfuse.DfuState` values exercised by the source. -/
inductive DfuState
  | dfuIdle
  | dfuDownloadBusy
  | dfuDownloadIdle
  | dfuManifestSync
  | dfuManifest
  | dfuError
  | dfuOther (n : Nat)
deriving DecidableEq, Repr

/-- One request issued to the device, recorded in the order the source issues
them. -/
inductive Cmd
  | setAlternate (alt : Nat)
  | getState
  | clearStatus
  | eraseAt (addr : Int)
  | setAddress (addr : Int)
  | write (blockNum : Nat) (block : List Nat)
  | leave
  | waitWhile (st : DfuState) (timeout : Option ℚ)
deriving DecidableEq, Repr

/-- An exception aborting the run: `TimeoutError` from `wait_while_state`, or
the `RuntimeError` the source raises carrying the observed device status. -/
inductive DfuError
  | timeoutError
  | protocolError (status : Nat × DfuState)
deriving DecidableEq, Repr

/-- Device responses: `stateResp n` answers the `n`-th `get_state()` call and
`waitResp n` the `n`-th `wait_while_state(...)` call (`none` = the wait timed
out and `TimeoutError` was raised). -/
structure DeviceOracle where
  stateResp : Nat → DfuState
  waitResp : Nat → Option (Nat × DfuState)

/-- The device handle threaded through the orchestration: the oracle, the two
call counters, and the log of requests issued so far. -/
structure Dev where
  oracle : DeviceOracle
  nState : Nat
  nWait : Nat
  log : List Cmd

/-- Record one request. -/
def Dev.emit (d : Dev) (c : Cmd) : Dev := { d with log := d.log ++ [c] }

/-- `dfudev.get_state()`. -/
def Dev.get_state (d : Dev) : DfuState × Dev :=
  (d.oracle.stateResp d.nState, { d.emit .getState with nState := d.nState + 1 })

/-- `dfudev.wait_while_state(st, timeout)`: issues the wait and either returns
the final device status or times out (`none`, modelling `TimeoutError`). -/
def Dev.wait_while_state (d : Dev) (st : DfuState) (timeout : Option ℚ) :
    Dev × Option (Nat × DfuState) :=
  ({ d.emit (.waitWhile st timeout) with nWait := d.nWait + 1 },
    d.oracle.waitResp d.nWait)

/-- `set_alternate_safe(dfudev, alt)` (dfu.py lines 65-69): select the
alternate; if the device then reports `DFU_ERROR`, clear the status once and
wait while the state is `DFU_ERROR` (result discarded; a timeout of that wait
propagates). -/
def set_alternate_safe (d : Dev) (alt : Nat) : Dev × Option DfuError :=
  let d := d.emit (.setAlternate alt)
  let (st, d) := d.get_state
  if st = .dfuError then
    let d := d.emit .clearStatus
    match d.wait_while_state .dfuError none with
    | (d, none) => (d, some .timeoutError)
    | (d, some _) => (d, none)
  else (d, none)

/-- One iteration of the `erase` loop (dfu.py lines 72-78): safe alternate
selection, `dfudev.erase(addr)`, then a wait while `DFU_DOWNLOAD_BUSY` with
timeout `len(sector['data'])/32`; a timeout raises `TimeoutError`, and a final
state other than `DFU_DOWNLOAD_IDLE` raises a `RuntimeError` carrying the
observed status. -/
def erase_step (d : Dev) (sec : PlannedSector) : Dev × Option DfuError :=
  match set_alternate_safe d sec.alt with
  | (d, some e) => (d, some e)
  | (d, none) =>
    let d := d.emit (.eraseAt sec.addr)
    match d.wait_while_state .dfuDownloadBusy (some ((sec.data.length : ℚ) / 32)) with
    | (d, none) => (d, some .timeoutError)
    | (d, some status) =>
      if status.2 ≠ .dfuDownloadIdle then (d, some (.protocolError status))
      else (d, none)

/-- `erase(dfudev, sectors)` (dfu.py lines 71-79): the sectors in order, the
whole run aborting on the first raised error. -/
def erase (d : Dev) : List PlannedSector → Dev × Option DfuError
  | [] => (d, none)
  | sec :: rest =>
    match erase_step d sec with
    | (d1, some e) => (d1, some e)
    | (d1, none) => erase d1 rest

/-- The block split of dfu.py line 91:
`[data[i:i + TRANSFER_SIZE] for i in range(0, len(data), TRANSFER_SIZE)]`. -/
def toBlocks (data : List Nat) : List (List Nat) :=
  match data with
  | [] => []
  | x :: xs =>
    (x :: xs).take TRANSFER_SIZE :: toBlocks ((x :: xs).drop TRANSFER_SIZE)
termination_by data.length
decreasing_by simp [TRANSFER_SIZE]; omega

/-- The `for blocknum, block in enumerate(blocks)` loop of dfu.py lines 92-98,
starting at block number `n`: `dfudev.write(blocknum, block)` then a wait
while `DFU_DOWNLOAD_BUSY`, raising on timeout or on a final state other than
`DFU_DOWNLOAD_IDLE`. -/
def flash_blocks (d : Dev) : List (List Nat) → Nat → Dev × Option DfuError
  | [], _ => (d, none)
  | b :: bs, n =>
    let d := d.emit (.write n b)
    match d.wait_while_state .dfuDownloadBusy none with
    | (d1, none) => (d1, some .timeoutError)
    | (d1, some status) =>
      if status.2 ≠ .dfuDownloadIdle then (d1, some (.protocolError status))
      else flash_blocks d1 bs (n + 1)

/-- One iteration of the `flash` loop (dfu.py lines 82-98): safe alternate
selection, `dfudev.set_address(addr)`, a wait while `DFU_DOWNLOAD_BUSY`
(raising unless it ends in `DFU_DOWNLOAD_IDLE`), then the block loop over
`toBlocks sector.data` from block number 0. -/
def flash_step (d : Dev) (sec : PlannedSector) : Dev × Option DfuError :=
  match set_alternate_safe d sec.alt with
  | (d, some e) => (d, some e)
  | (d, none) =>
    let d := d.emit (.setAddress sec.addr)
    match d.wait_while_state .dfuDownloadBusy none with
    | (d1, none) => (d1, some .timeoutError)
    | (d1, some status) =>
      if status.2 ≠ .dfuDownloadIdle then (d1, some (.protocolError status))
      else flash_blocks d1 (toBlocks sec.data) 0

/-- `flash(dfudev, sectors)` (dfu.py lines 81-99): the sectors in order, the
whole run aborting on the first raised error. -/
def flash (d : Dev) : List PlannedSector → Dev × Option DfuError
  | [] => (d, none)
  | sec :: rest =>
    match flash_step d sec with
    | (d1, some e) => (d1, some e)
    | (d1, none) => flash d1 rest

/-- The expected request log of a run of `flash_blocks` in which every wait
ends in `DFU_DOWNLOAD_IDLE`: each block written with its number, each write
followed by its busy-wait. -/
def writeLog (n : Nat) : List (List Nat) → List Cmd
  | [] => []
  | b :: bs => .write n b :: .waitWhile .dfuDownloadBusy none :: writeLog (n + 1) bs

/-! ### Helper lemmas about the planner -/

/-- Well-formedness of the IntelHex collaborator: outside every populated
segment there is no image byte (`segments()` is exactly the populated address
ranges of the underlying buffer). -/
def HexFile.WF (hf : HexFile) : Prop :=
  ∀ a : Int, (∀ seg ∈ hf.segments, ¬(seg.1 ≤ a ∧ a < seg.2)) → hf.byteAt a = none

/-- The while-loop of `load_sectors` yields exactly the touched members of the
full expansion, each with its `tobinarray` payload. -/
theorem planGroup_eq_filter (hf : HexFile) (alt : Nat) (size : Int) :
    ∀ (n : Nat) (addr : Int),
      planGroup hf alt size n addr =
        ((expandGroup size n addr).filter (fun p => touched hf.segments p.1 p.2)).map
          (fun p => ⟨alt, p.1, tobinarray hf p.1 (p.1 + p.2 - 1)⟩) := by
  intro n
  induction n with
  | zero => intro addr; rfl
  | succ n ih =>
    intro addr
    simp only [planGroup, expandGroup, List.filter_cons]
    by_cases h : touched hf.segments addr size = true
    · simp [h, ih (addr + size)]
    · simp [h, ih (addr + size)]

/-- Group-list version of `planGroup_eq_filter`. -/
theorem planGroups_eq_filter (hf : HexFile) (alt : Nat) :
    ∀ (groups : List (Int × Int × Char)) (addr : Int),
      planGroups hf alt addr groups =
        ((layoutSectors addr groups).filter (fun p => touched hf.segments p.1 p.2)).map
          (fun p => ⟨alt, p.1, tobinarray hf p.1 (p.1 + p.2 - 1)⟩) := by
  intro groups
  induction groups with
  | nil => intro addr; rfl
  | cons g rest ih =>
    intro addr
    obtain ⟨rep, size, mode⟩ := g
    simp [planGroups, layoutSectors, List.filter_append, List.map_append,
      planGroup_eq_filter, ih]

/-- Length of a `tobinarray` slice. -/
theorem tobinarray_length (hf : HexFile) (start endIncl : Int) :
    (tobinarray hf start endIncl).length = (endIncl - start + 1).toNat := by
  rw [tobinarray, List.length_map, List.length_range]

/-- Bytes of a `tobinarray` slice: the image byte where one exists, the
padding 0xFF elsewhere. -/
theorem tobinarray_getD (hf : HexFile) (start endIncl : Int) (i : Nat)
    (h : i < (endIncl - start + 1).toNat) :
    (tobinarray hf start endIncl).getD i 0 = (hf.byteAt (start + (i : Int))).getD 0xFF := by
  rw [tobinarray, List.getD_eq_getElem?_getD, List.getElem?_map, List.getElem?_range h]
  rfl

/-- A failing sector spec fails the whole layout field. -/
theorem parseSpecs_eq_none {l : List (List Char)} {spec : List Char}
    (hmem : spec ∈ l) (hnone : parseSectorSpec spec = none) :
    parseSpecs l = none := by
  induction l with
  | nil => cases hmem
  | cons x xs ih =>
    rcases List.mem_cons.mp hmem with h | h
    · subst h
      simp [parseSpecs, hnone]
    · rw [parseSpecs, ih h]
      cases hx : parseSectorSpec x <;> rfl

/-- Provenance of every planned sector: it came from an expanded sector
`(addr, S)` of some successfully parsed alternate, its overlap test succeeded,
and its payload is the `tobinarray` slice over `[addr, addr + S - 1]`. -/
theorem load_sectors_provenance :
    ∀ (alts : List (String × Nat)) (hf : HexFile) (out : List PlannedSector),
      load_sectors alts hf = some out → ∀ ps ∈ out,
        ∃ name alt label a groups S,
          (name, alt) ∈ alts ∧ ps.alt = alt ∧
          parseName name = some (label, a, groups) ∧
          (ps.addr, S) ∈ layoutSectors a groups ∧
          touched hf.segments ps.addr S = true ∧
          ps.data = tobinarray hf ps.addr (ps.addr + S - 1) := by
  intro alts
  induction alts with
  | nil =>
    intro hf out h ps hps
    simp only [load_sectors, Option.some.injEq] at h
    subst h
    cases hps
  | cons na rest ih =>
    intro hf out h ps hps
    obtain ⟨name, alt⟩ := na
    simp only [load_sectors] at h
    cases hp : parseName name with
    | none => rw [hp] at h; cases h
    | some v =>
      obtain ⟨label, a, groups⟩ := v
      rw [hp] at h
      cases hrest : load_sectors rest hf with
      | none => rw [hrest] at h; cases h
      | some ps2 =>
        rw [hrest] at h
        injection h with h
        subst h
        rcases List.mem_append.mp hps with hmem | hmem
        · rw [planGroups_eq_filter] at hmem
          rcases List.mem_map.mp hmem with ⟨p, hpmem, hpeq⟩
          rcases List.mem_filter.mp hpmem with ⟨hpin, hptouch⟩
          refine ⟨name, alt, label, a, groups, p.2, List.mem_cons_self _ _, ?_, hp, ?_, ?_, ?_⟩
          · rw [← hpeq]
          · rw [← hpeq]; simpa using hpin
          · rw [← hpeq]; simpa using hptouch
          · rw [← hpeq]
        · obtain ⟨name2, alt2, label2, a2, groups2, S2, hin, hrest2⟩ := ih hf ps2 hrest ps hmem
          exact ⟨name2, alt2, label2, a2, groups2, S2, List.mem_cons_of_mem _ hin, hrest2⟩

/-! ### Geometry of the expansion (for the tiling and monotonicity claims) -/

/-- Closed form of one group's expansion: the `i`-th expanded sector starts at
`c + size * i`. -/
theorem expandGroup_eq (size : Int) :
    ∀ (n : Nat) (c : Int),
      expandGroup size n c =
        (List.range n).map (fun i : Nat => (c + size * (i : Int), size)) := by
  intro n
  induction n with
  | zero => intro c; rfl
  | succ n ih =>
    intro c
    rw [List.range_succ_eq_map, expandGroup, ih (c + size)]
    simp only [List.map_cons, List.map_map]
    refine congrArg₂ List.cons (by simp) ?_
    refine List.map_congr_left ?_
    intro a _
    simp only [Function.comp_apply, Nat.cast_succ]
    refine congrArg₂ Prod.mk ?_ rfl
    ring

/-- The last expanded sector of a group ends exactly where the cursor lands:
`c + size * n`. -/
theorem expandGroup_getLast (size : Int) (n : Nat) (c : Int) (x : Int × Int)
    (hx : (expandGroup size n c).getLast? = some x) :
    x.1 + x.2 = c + size * (n : Int) := by
  rcases n with _ | m
  · simp [expandGroup] at hx
  · rw [expandGroup_eq, List.range_succ, List.map_append] at hx
    simp only [List.map_cons, List.map_nil, List.getLast?_concat, Option.some.injEq] at hx
    subst hx
    push_cast
    ring

/-- The head of a layout's expansion, when it exists, starts at the current
cursor (groups with a nonpositive repeat count contribute nothing and leave
the cursor unchanged). -/
theorem layoutSectors_head :
    ∀ (groups : List (Int × Int × Char)) (c : Int) (b : Int × Int),
      (layoutSectors c groups).head? = some b → b.1 = c := by
  intro groups
  induction groups with
  | nil => intro c b h; simp [layoutSectors] at h
  | cons g rest ih =>
    intro c b h
    obtain ⟨rep, size, mode⟩ := g
    rw [layoutSectors] at h
    rcases hn : rep.toNat with _ | m
    · rw [hn] at h
      simp only [expandGroup, List.nil_append, Nat.cast_zero, mul_zero, add_zero] at h
      exact ih c b h
    · rw [hn, expandGroup] at h
      simp only [List.cons_append, List.head?_cons, Option.some.injEq] at h
      rw [← h]

/-- Within one alternate the expanded sectors tile the address range: every
sector's end is the next sector's start. -/
theorem layoutSectors_chain :
    ∀ (groups : List (Int × Int × Char)) (c : Int),
      List.Chain' (fun a b : Int × Int => a.1 + a.2 = b.1) (layoutSectors c groups) := by
  intro groups
  induction groups with
  | nil => intro c; simp [layoutSectors]
  | cons g rest ih =>
    intro c
    obtain ⟨rep, size, mode⟩ := g
    rw [layoutSectors, List.chain'_append]
    refine ⟨?_, ih _, ?_⟩
    · rw [expandGroup_eq]
      rcases hn : rep.toNat with _ | m
      · simp
      · rw [List.chain'_map]
        rw [List.chain'_range_succ]
        intro i hi
        push_cast
        ring
    · intro x hx y hy
      have hx2 := expandGroup_getLast size rep.toNat c x (Option.mem_def.mp hx)
      have hy2 := layoutSectors_head rest _ y (Option.mem_def.mp hy)
      rw [hx2, hy2]

/-- Membership in one group's expansion. -/
theorem expandGroup_mem (size : Int) (n : Nat) (c : Int) (x : Int × Int)
    (hx : x ∈ expandGroup size n c) : ∃ i : Nat, i < n ∧ x = (c + size * (i : Int), size) := by
  rw [expandGroup_eq] at hx
  rcases List.mem_map.mp hx with ⟨i, hi, hxeq⟩
  exact ⟨i, List.mem_range.mp hi, hxeq.symm⟩

/-- With positive group sizes, the cursor never moves backwards: every
expanded sector starts at or after the current cursor. -/
theorem layoutSectors_lb :
    ∀ (groups : List (Int × Int × Char)) (c : Int),
      (∀ g ∈ groups, 0 < g.2.1) →
      ∀ y ∈ layoutSectors c groups, c ≤ y.1 := by
  intro groups
  induction groups with
  | nil => intro c _ y hy; simp [layoutSectors] at hy
  | cons g rest ih =>
    intro c hpos y hy
    obtain ⟨rep, size, mode⟩ := g
    have hsize : 0 < size := hpos _ (List.mem_cons_self _ _)
    rw [layoutSectors] at hy
    rcases List.mem_append.mp hy with hmem | hmem
    · rcases expandGroup_mem size rep.toNat c y hmem with ⟨i, _, hyeq⟩
      rw [hyeq]
      have : (0 : Int) ≤ size * (i : Int) := by positivity
      simpa using this
    · have h1 := ih (c + size * (rep.toNat : Int)) (fun g hg => hpos g (List.mem_cons_of_mem _ hg)) y hmem
      have : (0 : Int) ≤ size * (rep.toNat : Int) := by positivity
      omega

/-- With positive group sizes, the expanded start addresses are strictly
increasing. -/
theorem layoutSectors_sorted :
    ∀ (groups : List (Int × Int × Char)) (c : Int),
      (∀ g ∈ groups, 0 < g.2.1) →
      List.Pairwise (fun a b : Int × Int => a.1 < b.1) (layoutSectors c groups) := by
  intro groups
  induction groups with
  | nil => intro c _; simp [layoutSectors]
  | cons g rest ih =>
    intro c hpos
    obtain ⟨rep, size, mode⟩ := g
    have hsize : 0 < size := hpos _ (List.mem_cons_self _ _)
    rw [layoutSectors, List.pairwise_append]
    refine ⟨?_, ih _ (fun g hg => hpos g (List.mem_cons_of_mem _ hg)), ?_⟩
    · rw [expandGroup_eq, List.pairwise_map]
      refine List.Pairwise.imp ?_ (List.pairwise_lt_range _)
      intro i j hij
      have : size * (i : Int) < size * (j : Int) := by
        apply mul_lt_mul_of_pos_left _ hsize
        exact_mod_cast hij
      simpa using this
    · intro x hx y hy
      rcases expandGroup_mem size rep.toNat c x hx with ⟨i, hi, hxeq⟩
      have hylb := layoutSectors_lb rest (c + size * (rep.toNat : Int))
        (fun g hg => hpos g (List.mem_cons_of_mem _ hg)) y hy
      rw [hxeq]
      have : size * (i : Int) < size * (rep.toNat : Int) := by
        apply mul_lt_mul_of_pos_left _ hsize
        exact_mod_cast hi
      simp only []
      omega

/-- A small concrete image for witnesses: one populated segment `[1, 3)`
holding the byte 9 at both addresses. -/
def hfSmall : HexFile := ⟨[(1, 3)], fun a => if 1 ≤ a ∧ a < 3 then some 9 else none⟩

/-- `hfSmall` satisfies the IntelHex invariant. -/
theorem hfSmall_WF : hfSmall.WF := by
  intro a h
  have h1 := h (1, 3) (by simp [hfSmall])
  simp only [hfSmall]
  rw [if_neg h1]

/-! ### Claims C1-C4: the sector planner -/

/-- C1, counterexample to the claim as stated: the claim's boundary sentence
says a segment whose exclusive end equals the sector start `A` never marks the
sector touched, and a segment with end `A + 1` and start `≤ A` always does.
Both fail on degenerate inputs the claim quantifies over: the empty segment
`[0, 0)` marks the sector at 0 of size 1 touched (condition (b) holds), and
the segment `[0, 1)` does not mark the sector at 0 of size 0 touched. -/
theorem claim_C1_counterexample :
    touched [((0 : Int), (0 : Int))] 0 1 = true
    ∧ touched [((0 : Int), (1 : Int))] 0 0 = false := by
  decide

/-- C1 (amended): a sector at `A` of size `S` is touched iff some image
segment `(start, end)` has `start < A < end` or `A ≤ start < A + S`; in
particular a nonempty segment with exclusive end exactly `A` does not by
itself mark the sector touched, while a segment with end `A + 1` and start
`≤ A` marks it touched provided `1 ≤ S`; and the planner yields exactly the
touched members of the expansion. -/
theorem claim_C1_amended :
    (∀ (segs : List (Int × Int)) (addr size : Int),
      touched segs addr size = true ↔
        ∃ p ∈ segs, (p.1 < addr ∧ addr < p.2) ∨ (addr ≤ p.1 ∧ p.1 < addr + size))
    ∧ (∀ s addr size : Int, s < addr → touched [(s, addr)] addr size = false)
    ∧ (∀ s addr size : Int, s ≤ addr → 1 ≤ size → touched [(s, addr + 1)] addr size = true)
    ∧ (∀ (hf : HexFile) (alt : Nat) (addr : Int) (groups : List (Int × Int × Char)),
        planGroups hf alt addr groups =
          ((layoutSectors addr groups).filter (fun p => touched hf.segments p.1 p.2)).map
            (fun p => ⟨alt, p.1, tobinarray hf p.1 (p.1 + p.2 - 1)⟩)) := by
  refine ⟨?_, ?_, ?_, fun hf alt addr groups => planGroups_eq_filter hf alt groups addr⟩
  · intro segs addr size
    simp [touched, List.any_eq_true]
  · intro s addr size h
    simp only [touched, List.any_cons, List.any_nil, Bool.or_false]
    simp only [Bool.or_eq_false_iff, Bool.and_eq_false_iff]
    constructor
    · right; simp
    · left; simpa using not_le.mpr h
  · intro s addr size h1 h2
    simp only [touched, List.any_cons, List.any_nil, Bool.or_false]
    rcases lt_or_eq_of_le h1 with h | h
    · apply Bool.or_eq_true_iff.mpr
      left
      simp only [Bool.and_eq_true, decide_eq_true_eq]
      exact ⟨h, by omega⟩
    · apply Bool.or_eq_true_iff.mpr
      right
      simp only [Bool.and_eq_true, decide_eq_true_eq, ge_iff_le]
      omega

/-- C1, witness: the amended boundary facts at concrete inputs. -/
theorem claim_C1_witness :
    ((-1 : Int) < 0 ∧ touched [((-1 : Int), (0 : Int))] 0 5 = false)
    ∧ ((0 : Int) ≤ 0 ∧ (1 : Int) ≤ 1 ∧ touched [((0 : Int), (0 + 1 : Int))] 0 1 = true) :=
  ⟨⟨by decide, claim_C1_amended.2.1 (-1) 0 5 (by decide)⟩,
   by decide, by decide, claim_C1_amended.2.2.1 0 0 1 (by decide) (by decide)⟩

/-- C2, counterexample to the claim as stated: the spec grammar accepts a
negative sector size (C8's own wording allows any integer there), and a
negative-size sector can still be touched through the straddling condition;
the source then slices `tobinarray(addr, addr + size - 1)` over an empty
range.  With the descriptor `"@F/0x10/01*-16 g"` (one sector at 0x10 of
nominal size -16) and one image segment `[10, 20)`, the planner emits a
sector whose payload is empty — its length 0 differs from the nominal
size -16. -/
theorem claim_C2_counterexample :
    parseName "@F/0x10/01*-16 g" = some ("@F", 16, [(1, -16, 'g')])
    ∧ load_sectors [("@F/0x10/01*-16 g", 0)]
        ⟨[(10, 20)], fun a => if 10 ≤ a ∧ a < 20 then some 0xAB else none⟩ =
        some [⟨0, 16, []⟩]
    ∧ (([] : List Nat).length : Int) ≠ -16 := by
  exact ⟨rfl, rfl, by decide⟩

/-- C2 (amended): every planned sector stems from an expanded sector
`(addr, S)` whose overlap test succeeded; its payload is the `tobinarray`
slice over `[addr, addr + S - 1]`, so whenever the nominal size `S` is
nonnegative the payload length equals `S` exactly (a pathological
negative-size spec gives an empty payload instead); and, under the IntelHex
invariant that no byte exists outside the populated segments, every payload
byte at an address not covered by any segment equals 0xFF. -/
theorem claim_C2_amended :
    (∀ (alts : List (String × Nat)) (hf : HexFile) (out : List PlannedSector),
      load_sectors alts hf = some out → ∀ ps ∈ out,
        ∃ name alt label a groups S,
          (name, alt) ∈ alts ∧ ps.alt = alt ∧
          parseName name = some (label, a, groups) ∧
          (ps.addr, S) ∈ layoutSectors a groups ∧
          touched hf.segments ps.addr S = true ∧
          ps.data = tobinarray hf ps.addr (ps.addr + S - 1) ∧
          (0 ≤ S → (ps.data.length : Int) = S))
    ∧ (∀ (alts : List (String × Nat)) (hf : HexFile) (out : List PlannedSector),
        load_sectors alts hf = some out → hf.WF → ∀ ps ∈ out,
          ∀ i : Nat, i < ps.data.length →
            (∀ seg ∈ hf.segments,
              ¬(seg.1 ≤ ps.addr + (i : Int) ∧ ps.addr + (i : Int) < seg.2)) →
            ps.data.getD i 0 = 0xFF) := by
  constructor
  · intro alts hf out hload ps hps
    obtain ⟨name, alt, label, a, groups, S, h1, h2, h3, h4, h5, h6⟩ :=
      load_sectors_provenance alts hf out hload ps hps
    refine ⟨name, alt, label, a, groups, S, h1, h2, h3, h4, h5, h6, ?_⟩
    intro hS
    rw [h6, tobinarray_length]
    have he : ps.addr + S - 1 - ps.addr + 1 = S := by ring
    rw [he]
    exact_mod_cast congrArg (fun n : Nat => (n : Int)) (rfl : S.toNat = S.toNat)
      |>.trans (Int.toNat_of_nonneg hS)
  · intro alts hf out hload hwf ps hps i hi hout
    obtain ⟨name, alt, label, a, groups, S, h1, h2, h3, h4, h5, h6⟩ :=
      load_sectors_provenance alts hf out hload ps hps
    rw [h6] at hi ⊢
    rw [tobinarray_length] at hi
    rw [tobinarray_getD hf _ _ i hi, hwf (ps.addr + (i : Int)) hout]
    rfl

/-- C2, witness: a sector of size 4 at 0 with one populated segment `[1, 3)`
gives the payload `[0xFF, 9, 9, 0xFF]`; its byte at the uncovered address 0
is 0xFF. -/
theorem claim_C2_witness :
    load_sectors [("@F/0x0/01*004 g", 0)] hfSmall = some [⟨0, 0, [255, 9, 9, 255]⟩]
    ∧ (0 : Nat) < 4
    ∧ (PlannedSector.mk 0 0 [255, 9, 9, 255]).data.getD 0 0 = 0xFF := by
  refine ⟨rfl, by decide, ?_⟩
  exact claim_C2_amended.2 [("@F/0x0/01*004 g", 0)] hfSmall [⟨0, 0, [255, 9, 9, 255]⟩] rfl
    hfSmall_WF ⟨0, 0, [255, 9, 9, 255]⟩ (by decide) 0 (by decide) (by decide)

/-- Scenario 1 image: one populated segment `[0x08004000, 0x08004100)` with
byte values given by `f`. -/
def scenarioHex (f : Int → Nat) : HexFile :=
  ⟨[(0x08004000, 0x08004100)],
   fun a => if 0x08004000 ≤ a ∧ a < 0x08004100 then some (f a) else none⟩

/-- C3, counterexample to the claim as stated: in the scenario the single
planned sector starts at 0x08004000, which is the start of the 2nd 16K
sector (base + 1·16384), not the 3rd (base + 2·16384) as the claim's
parenthetical says; and a sector wholly outside every image segment can
appear in the planned list when a degenerate empty segment sits inside it
(segment `[0, 0)` covers no address, yet the sector at 0 of size 1 is
planned through overlap condition (b)). -/
theorem claim_C3_counterexample :
    load_sectors [("@Flash/0x08000000/04*016Kg,01*064Kg", 0)] (scenarioHex (fun _ => 0x5A)) =
      some [⟨0, 0x08004000,
        tobinarray (scenarioHex (fun _ => 0x5A)) 0x08004000 (0x08004000 + 16384 - 1)⟩]
    ∧ (0x08004000 : Int) ≠ 0x08000000 + 2 * 16384
    ∧ load_sectors [("@F/0x0/01*001 g", 0)] ⟨[(0, 0)], fun _ => none⟩ =
        some [⟨0, 0, [0xFF]⟩] := by
  exact ⟨rfl, by decide, rfl⟩

/-- C3 (amended): for the layout `"@Flash/0x08000000/04*016Kg,01*064Kg"` and
one image segment `[0x08004000, 0x08004100)` with arbitrary byte contents,
the planner emits exactly one sector — at 0x08004000 (the 2nd 16K sector,
base + 1·16384) of size 16384 — whose first 256 payload bytes are the image
bytes and whose remaining 16128 bytes are 0xFF; and, provided every image
segment is nonempty, every planned sector with a nonempty payload shares at
least one address with some image segment (so no sector wholly outside every
segment is planned). -/
theorem claim_C3_amended :
    (∀ f : Int → Nat,
      load_sectors [("@Flash/0x08000000/04*016Kg,01*064Kg", 0)] (scenarioHex f) =
        some [⟨0, 0x08004000,
          (List.range 16384).map
            (fun i : Nat => if i < 256 then f (0x08004000 + (i : Int)) else 0xFF)⟩]
      ∧ (0x08004000 : Int) = 0x08000000 + 1 * 16384)
    ∧ (∀ (alts : List (String × Nat)) (hf : HexFile) (out : List PlannedSector),
        load_sectors alts hf = some out →
        (∀ seg ∈ hf.segments, seg.1 < seg.2) →
        ∀ ps ∈ out, 1 ≤ ps.data.length →
          ∃ seg ∈ hf.segments, ∃ x : Int,
            ps.addr ≤ x ∧ x < ps.addr + (ps.data.length : Int) ∧
            seg.1 ≤ x ∧ x < seg.2) := by
  constructor
  · intro f
    refine ⟨?_, by norm_num⟩
    have h1 : load_sectors [("@Flash/0x08000000/04*016Kg,01*064Kg", 0)] (scenarioHex f) =
        some [⟨0, 0x08004000,
          tobinarray (scenarioHex f) 0x08004000 (0x08004000 + 16384 - 1)⟩] := rfl
    rw [h1]
    refine congrArg some (congrArg (fun d => [PlannedSector.mk 0 0x08004000 d]) ?_)
    rw [tobinarray]
    have hn : ((0x08004000 + 16384 - 1 : Int) - 0x08004000 + 1).toNat = 16384 := by rfl
    rw [hn]
    refine List.map_congr_left ?_
    intro i hi
    have hi2 : i < 16384 := List.mem_range.mp hi
    by_cases hc : i < 256
    · have hcond : (0x08004000 : Int) ≤ 0x08004000 + (i : Int) ∧
          (0x08004000 : Int) + (i : Int) < 0x08004100 := by omega
      simp only [scenarioHex, if_pos hcond, if_pos hc, Option.getD_some]
    · have hcond : ¬((0x08004000 : Int) ≤ 0x08004000 + (i : Int) ∧
          (0x08004000 : Int) + (i : Int) < 0x08004100) := by omega
      simp only [scenarioHex, if_neg hcond, if_neg hc, Option.getD_none]
  · intro alts hf out hload hseg ps hps hlen
    obtain ⟨name, alt, label, a, groups, S, h1, h2, h3, h4, h5, h6⟩ :=
      load_sectors_provenance alts hf out hload ps hps
    have hlenS : (ps.data.length : Int) = S.toNat := by
      rw [h6, tobinarray_length]
      have he : ps.addr + S - 1 - ps.addr + 1 = S := by ring
      rw [he]
    have hSpos : 1 ≤ S := by omega
    have htouch := h5
    rw [touched, List.any_eq_true] at htouch
    obtain ⟨seg, hsegmem, hcond⟩ := htouch
    simp only [Bool.or_eq_true, Bool.and_eq_true, decide_eq_true_eq, ge_iff_le] at hcond
    have hne := hseg seg hsegmem
    rcases hcond with ⟨hlt, hgt⟩ | ⟨hge, hltS⟩
    · exact ⟨seg, hsegmem, ps.addr, le_refl _, by omega, by omega, by omega⟩
    · refine ⟨seg, hsegmem, seg.1, hge, ?_, le_refl _, hne⟩
      have : (S.toNat : Int) = S := Int.toNat_of_nonneg (by omega)
      omega

/-- C3, witness: the overlap conclusion at a concrete planned run — sector
`[0, 4)` with the nonempty segment `[1, 3)` shares an address with it. -/
theorem claim_C3_witness :
    load_sectors [("@F/0x0/01*004 g", 0)] hfSmall = some [⟨0, 0, [255, 9, 9, 255]⟩]
    ∧ (∀ seg ∈ hfSmall.segments, seg.1 < seg.2)
    ∧ (∃ seg ∈ hfSmall.segments, ∃ x : Int,
        (PlannedSector.mk 0 0 [255, 9, 9, 255]).addr ≤ x ∧
        x < (PlannedSector.mk 0 0 [255, 9, 9, 255]).addr +
          ((PlannedSector.mk 0 0 [255, 9, 9, 255]).data.length : Int) ∧
        seg.1 ≤ x ∧ x < seg.2) := by
  refine ⟨rfl, by decide, ?_⟩
  exact claim_C3_amended.2 [("@F/0x0/01*004 g", 0)] hfSmall [⟨0, 0, [255, 9, 9, 255]⟩] rfl
    (by decide) ⟨0, 0, [255, 9, 9, 255]⟩ (by decide) (by decide)

/-- C4, counterexample to the claim as stated: the grammar accepts a
zero-size sector group (`"02*000Kg"`), whose two expanded sectors both start
at the base address — the start addresses are not strictly increasing. -/
theorem claim_C4_counterexample :
    parseName "@F/0x0/02*000Kg" = some ("@F", 0, [(2, 0, 'g')])
    ∧ layoutSectors 0 [((2 : Int), (0 : Int), 'g')] = [(0, 0), (0, 0)]
    ∧ ¬((0 : Int) < 0) := by
  exact ⟨rfl, rfl, by decide⟩

/-- C4 (amended): the sectors expanded from a layout's groups tile the
address range — each sector's end address (start + size) equals the next
sector's start, with no gaps or overlaps, because the cursor starts at the
base address and advances by the size after every expanded sector whether or
not it is touched; and the start addresses are strictly increasing provided
every group's sector size is positive (a zero- or negative-size group, which
the grammar admits, breaks strictness). -/
theorem claim_C4_amended :
    (∀ (addr : Int) (groups : List (Int × Int × Char)),
      List.Chain' (fun a b : Int × Int => a.1 + a.2 = b.1) (layoutSectors addr groups))
    ∧ (∀ (addr : Int) (groups : List (Int × Int × Char)),
        (∀ g ∈ groups, 0 < g.2.1) →
        List.Pairwise (fun a b : Int × Int => a.1 < b.1) (layoutSectors addr groups)) :=
  ⟨fun addr groups => layoutSectors_chain groups addr,
   fun addr groups h => layoutSectors_sorted groups addr h⟩

/-- C4, witness: the strict-increase conclusion at the scenario layout. -/
theorem claim_C4_witness :
    (∀ g ∈ [((4 : Int), (16384 : Int), 'g'), ((1 : Int), (65536 : Int), 'g')], 0 < g.2.1)
    ∧ List.Pairwise (fun a b : Int × Int => a.1 < b.1)
        (layoutSectors 0x08000000 [(4, 16384, 'g'), (1, 65536, 'g')]) :=
  ⟨by decide, claim_C4_amended.2 0x08000000 [(4, 16384, 'g'), (1, 65536, 'g')] (by decide)⟩

/-- Unfolding of `load_sectors` on a successfully parsed head alternate. -/
theorem load_sectors_cons_some (name : String) (alt : Nat) (rest : List (String × Nat))
    (hf : HexFile) (label : String) (addr : Int) (groups : List (Int × Int × Char))
    (hp : parseName name = some (label, addr, groups)) :
    load_sectors ((name, alt) :: rest) hf =
      match load_sectors rest hf with
      | some ps => some (planGroups hf alt addr groups ++ ps)
      | none => none := by
  simp only [load_sectors]
  rw [hp]

/-- Planning ignores the access-mode tag: group lists equal up to the tag
plan identically. -/
theorem planGroups_mode_irrel (hf : HexFile) (alt : Nat) :
    ∀ (g1 g2 : List (Int × Int × Char)) (addr : Int),
      g1.map (fun g => (g.1, g.2.1)) = g2.map (fun g => (g.1, g.2.1)) →
      planGroups hf alt addr g1 = planGroups hf alt addr g2 := by
  intro g1
  induction g1 with
  | nil =>
    intro g2 addr h
    cases g2 with
    | nil => rfl
    | cons y ys => simp at h
  | cons x xs ih =>
    intro g2 addr h
    cases g2 with
    | nil => simp at h
    | cons y ys =>
      obtain ⟨xr, xsz, xm⟩ := x
      obtain ⟨yr, ysz, ym⟩ := y
      simp only [List.map_cons, List.cons.injEq, Prod.mk.injEq] at h
      obtain ⟨⟨hr, hs⟩, hrest⟩ := h
      subst hr
      subst hs
      simp only [planGroups]
      rw [ih ys _ hrest]

/-! ### Claims C8-C10: descriptor parsing -/

/-- Dropping the last two characters of `body ++ [u, m]` gives `body`. -/
theorem dropLast_two (body : List Char) (u m : Char) :
    (body ++ [u, m]).dropLast.dropLast = body := by
  have h : body ++ [u, m] = (body ++ [u]) ++ [m] := by simp
  rw [h, List.dropLast_concat, List.dropLast_concat]

/-- The last and second-to-last characters of `body ++ [u, m]`. -/
theorem getLast_two (body : List Char) (u m : Char) :
    (body ++ [u, m]).getLast? = some m ∧ (body ++ [u, m]).dropLast.getLast? = some u := by
  have h : body ++ [u, m] = (body ++ [u]) ++ [m] := by simp
  rw [h, List.dropLast_concat]
  exact ⟨List.getLast?_concat _, List.getLast?_concat _⟩

/-- Evaluation of `parseSectorSpec` on a spec split into its body and its two
trailing (unit, mode) characters. -/
theorem parseSectorSpec_concat_eval (body : List Char) (u m : Char) :
    parseSectorSpec (body ++ [u, m]) =
      match splitOnChar '*' body with
      | [rcs, scs] =>
        match pyIntBase 10 rcs, pyIntBase 10 scs with
        | some rep, some sizeRaw =>
          match SIZE_MULTIPLIERS (pyUpper u) with
          | some mult => some (rep, sizeRaw * (mult : Int), m)
          | none => none
        | _, _ => none
      | _ => none := by
  unfold parseSectorSpec
  rw [dropLast_two, (getLast_two body u m).1, (getLast_two body u m).2]

/-- C8, counterexample to the claim as stated: the claim says parsing fails
when the address field is not a valid unsigned integer, but the source uses
Python's `int(addr, 0)`, which accepts an optional sign: the descriptor with
fields `"@Flash"`, `"-17"`, `"01*016Kg"` has the address field `"-17"` — not
an unsigned integer — yet parses successfully (to the negative base
address -17). -/
theorem claim_C8_counterexample :
    parseName "@Flash/-17/01*016Kg" = some ("@Flash", -17, [(1, 16384, 'g')])
    ∧ (-17 : Int) < 0 :=
  ⟨rfl, by decide⟩

/-- C8 (amended): parsing fails when the descriptor does not have exactly
three `/`-delimited fields, when the address field is not a valid (optionally
signed, base-0) Python integer literal, or when any comma-separated sector
spec is malformed; a successfully parsed spec has the form
`repeat*sizeUnitMode` with integer repeat and size and a known unit, and the
size multiplier is 1 for a blank unit, 1024 for 'K' and 1024·1024 for 'M'. -/
theorem claim_C8_amended :
    (∀ name : String, (splitOnChar '/' name.data).length ≠ 3 → parseName name = none)
    ∧ (∀ (name : String) (l a lay : List Char),
        splitOnChar '/' name.data = [l, a, lay] → pyInt0 a = none → parseName name = none)
    ∧ (∀ (name : String) (l a lay spec : List Char),
        splitOnChar '/' name.data = [l, a, lay] → spec ∈ splitOnChar ',' lay →
        parseSectorSpec spec = none → parseName name = none)
    ∧ (SIZE_MULTIPLIERS ' ' = some 1 ∧ SIZE_MULTIPLIERS 'K' = some 1024
        ∧ SIZE_MULTIPLIERS 'M' = some (1024 * 1024))
    ∧ (∀ (s : List Char) (rep size : Int) (m : Char),
        parseSectorSpec s = some (rep, size, m) →
        ∃ rcs scs u mult raw,
          splitOnChar '*' s.dropLast.dropLast = [rcs, scs] ∧
          pyIntBase 10 rcs = some rep ∧ pyIntBase 10 scs = some raw ∧
          s.dropLast.getLast? = some u ∧ s.getLast? = some m ∧
          SIZE_MULTIPLIERS (pyUpper u) = some mult ∧ size = raw * (mult : Int)) := by
  refine ⟨?_, ?_, ?_, ⟨rfl, rfl, rfl⟩, ?_⟩
  · intro name h
    unfold parseName
    rcases hs : splitOnChar '/' name.data with _ | ⟨x, _ | ⟨y, _ | ⟨z, _ | ⟨w, rest⟩⟩⟩⟩ <;>
      first
        | rfl
        | (rw [hs] at h; simp at h)
  · intro name l a lay hs hint
    unfold parseName
    simp only [hs]
    rw [hint]
  · intro name l a lay spec hs hmem hspec
    unfold parseName
    simp only [hs]
    rw [parseSpecs_eq_none hmem hspec]
    rcases hpa : pyInt0 a with _ | addr <;> rfl
  · intro s rep size m hp
    unfold parseSectorSpec at hp
    split at hp <;> try exact Option.noConfusion hp
    split at hp <;> try exact Option.noConfusion hp
    split at hp <;> try exact Option.noConfusion hp
    split at hp <;> try exact Option.noConfusion hp
    injection hp with hp
    injection hp with he1 hp2
    injection hp2 with he2 he3
    subst he1
    subst he3
    exact ⟨_, _, _, _, _, by assumption, by assumption, by assumption, by assumption,
      by assumption, by assumption, he2.symm⟩

/-- C8, witness: a string with no slashes fails to parse, and the spec
`"04*016Kg"` parses with the claimed structure. -/
theorem claim_C8_witness :
    (splitOnChar '/' "noslashes".data).length ≠ 3
    ∧ parseName "noslashes" = none
    ∧ parseSectorSpec "04*016Kg".data = some (4, 16384, 'g')
    ∧ (∃ rcs scs u mult raw,
        splitOnChar '*' ("04*016Kg".data).dropLast.dropLast = [rcs, scs] ∧
        pyIntBase 10 rcs = some 4 ∧ pyIntBase 10 scs = some raw ∧
        ("04*016Kg".data).dropLast.getLast? = some u ∧
        ("04*016Kg".data).getLast? = some 'g' ∧
        SIZE_MULTIPLIERS (pyUpper u) = some mult ∧ (16384 : Int) = raw * (mult : Int)) := by
  refine ⟨by decide, claim_C8_amended.1 "noslashes" (by decide), rfl, ?_⟩
  exact claim_C8_amended.2.2.2.2 "04*016Kg".data 4 16384 'g' rfl

/-- C9: the planner's output does not depend on the access-mode tag letters:
two descriptor lists whose alternates pairwise parse to the same base address
and the same groups up to the mode character produce identical planned
sectors (the tag is parsed but never used). -/
theorem claim_C9 :
    ∀ (hf : HexFile) (alts1 alts2 : List (String × Nat)),
      List.Forall₂ (fun p q : String × Nat =>
        p.2 = q.2 ∧ ∃ l1 l2 a g1 g2,
          parseName p.1 = some (l1, a, g1) ∧ parseName q.1 = some (l2, a, g2) ∧
          g1.map (fun g => (g.1, g.2.1)) = g2.map (fun g => (g.1, g.2.1))) alts1 alts2 →
      load_sectors alts1 hf = load_sectors alts2 hf := by
  intro hf alts1 alts2 h
  induction h with
  | nil => rfl
  | @cons p q tl1 tl2 hpq htl ih =>
    obtain ⟨np, ap⟩ := p
    obtain ⟨nq, aq⟩ := q
    obtain ⟨halt, l1, l2, a, g1, g2, hp1, hp2, hg⟩ := hpq
    simp only at halt
    subst halt
    rw [load_sectors_cons_some np ap tl1 hf l1 a g1 hp1,
      load_sectors_cons_some nq ap tl2 hf l2 a g2 hp2, ih,
      planGroups_mode_irrel hf ap g1 g2 a hg]

/-- C9, witness: the same layout with mode tags 'g' and 'e' plans
identically. -/
theorem claim_C9_witness :
    List.Forall₂ (fun p q : String × Nat =>
      p.2 = q.2 ∧ ∃ l1 l2 a g1 g2,
        parseName p.1 = some (l1, a, g1) ∧ parseName q.1 = some (l2, a, g2) ∧
        g1.map (fun g => (g.1, g.2.1)) = g2.map (fun g => (g.1, g.2.1)))
      [("@Flash/0x08000000/04*016Kg", 0)] [("@Flash/0x08000000/04*016Ke", 0)]
    ∧ load_sectors [("@Flash/0x08000000/04*016Kg", 0)] hfSmall =
        load_sectors [("@Flash/0x08000000/04*016Ke", 0)] hfSmall := by
  have hF : List.Forall₂ (fun p q : String × Nat =>
      p.2 = q.2 ∧ ∃ l1 l2 a g1 g2,
        parseName p.1 = some (l1, a, g1) ∧ parseName q.1 = some (l2, a, g2) ∧
        g1.map (fun g => (g.1, g.2.1)) = g2.map (fun g => (g.1, g.2.1)))
      [("@Flash/0x08000000/04*016Kg", 0)] [("@Flash/0x08000000/04*016Ke", 0)] :=
    .cons ⟨rfl, "@Flash", "@Flash", 0x08000000,
      [(4, 16384, 'g')], [(4, 16384, 'e')], rfl, rfl, rfl⟩ .nil
  exact ⟨hF, claim_C9 hfSmall _ _ hF⟩

/-- C10: the unit character of a sector spec is uppercased before the
multiplier lookup, so a lowercase 'k' or 'm' behaves exactly like 'K' or 'M'
(multipliers 1024 and 1024·1024), and any unit character that is not blank,
'K' or 'M' after uppercasing makes the spec — hence the whole descriptor —
fail to parse. -/
theorem claim_C10 :
    (∀ (body : List Char) (m : Char),
      parseSectorSpec (body ++ ['k', m]) = parseSectorSpec (body ++ ['K', m]))
    ∧ (∀ (body : List Char) (m : Char),
      parseSectorSpec (body ++ ['m', m]) = parseSectorSpec (body ++ ['M', m]))
    ∧ SIZE_MULTIPLIERS (pyUpper 'k') = some 1024
    ∧ SIZE_MULTIPLIERS (pyUpper 'm') = some (1024 * 1024)
    ∧ (∀ (body : List Char) (u m : Char),
        pyUpper u ≠ ' ' → pyUpper u ≠ 'K' → pyUpper u ≠ 'M' →
        parseSectorSpec (body ++ [u, m]) = none) := by
  refine ⟨?_, ?_, by decide, by decide, ?_⟩
  · intro body m
    rw [parseSectorSpec_concat_eval, parseSectorSpec_concat_eval,
      show pyUpper 'k' = pyUpper 'K' from by decide]
  · intro body m
    rw [parseSectorSpec_concat_eval, parseSectorSpec_concat_eval,
      show pyUpper 'm' = pyUpper 'M' from by decide]
  · intro body u m h1 h2 h3
    rw [parseSectorSpec_concat_eval]
    have hmult : SIZE_MULTIPLIERS (pyUpper u) = none := by
      simp [SIZE_MULTIPLIERS, h1, h2, h3]
    rcases splitOnChar '*' body with _ | ⟨rcs, _ | ⟨scs, _ | ⟨r3, rest⟩⟩⟩
    · rfl
    · rfl
    · simp only [hmult]
      rcases pyIntBase 10 rcs with _ | rep <;> rcases pyIntBase 10 scs with _ | sizeRaw <;>
        rfl
    · rfl

/-- C10, witness: a spec with the unknown unit 'Q' fails to parse. -/
theorem claim_C10_witness :
    pyUpper 'Q' ≠ ' ' ∧ pyUpper 'Q' ≠ 'K' ∧ pyUpper 'Q' ≠ 'M'
    ∧ parseSectorSpec ("01*016".data ++ ['Q', 'g']) = none :=
  ⟨by decide, by decide, by decide,
   claim_C10.2.2.2.2 "01*016".data 'Q' 'g' (by decide) (by decide) (by decide)⟩

/-! ### Claims C5-C7: the orchestration loops -/

/-- Number of clear-status requests in a log. -/
def countClear (log : List Cmd) : Nat := log.countP fun c => decide (c = .clearStatus)

/-- The device state once the erase request and its busy-wait have been
issued for one sector, starting from the state `d1` left by the alternate
selection. -/
def eraseIssued (d1 : Dev) (sec : PlannedSector) : Dev :=
  { d1 with
    log := d1.log ++ [.eraseAt sec.addr,
      .waitWhile .dfuDownloadBusy (some ((sec.data.length : ℚ) / 32))],
    nWait := d1.nWait + 1 }

/-- C6: selecting an alternate while the device reports `DFU_ERROR` issues
exactly one clear-status request followed by a wait for the ERROR state to
clear, all before the operation returns; when the device is not in ERROR, no
clear-status request is issued. -/
theorem claim_C6 :
    (∀ (d : Dev) (alt : Nat), d.oracle.stateResp d.nState = .dfuError →
      (set_alternate_safe d alt).1.log =
        d.log ++ [.setAlternate alt, .getState, .clearStatus, .waitWhile .dfuError none]
      ∧ countClear (set_alternate_safe d alt).1.log = countClear d.log + 1)
    ∧ (∀ (d : Dev) (alt : Nat), d.oracle.stateResp d.nState ≠ .dfuError →
      (set_alternate_safe d alt).1.log = d.log ++ [.setAlternate alt, .getState]
      ∧ countClear (set_alternate_safe d alt).1.log = countClear d.log) := by
  constructor
  · intro d alt herr
    have hlog : (set_alternate_safe d alt).1.log =
        d.log ++ [.setAlternate alt, .getState, .clearStatus, .waitWhile .dfuError none] := by
      simp only [set_alternate_safe, Dev.get_state, Dev.emit, Dev.wait_while_state, herr,
        if_pos]
      rcases d.oracle.waitResp d.nWait with _ | status <;> simp [List.append_assoc]
    refine ⟨hlog, ?_⟩
    rw [hlog]
    simp [countClear, List.countP_append, List.countP_cons]
  · intro d alt herr
    have hlog : (set_alternate_safe d alt).1.log = d.log ++ [.setAlternate alt, .getState] := by
      simp only [set_alternate_safe, Dev.get_state, Dev.emit, Dev.wait_while_state,
        if_neg herr]
      simp [List.append_assoc]
    refine ⟨hlog, ?_⟩
    rw [hlog]
    simp [countClear, List.countP_append, List.countP_cons]

/-- C6, witness: a device reporting ERROR gets exactly one clear-status. -/
theorem claim_C6_witness :
    (Dev.mk ⟨fun _ => .dfuError, fun _ => some (0, .dfuIdle)⟩ 0 0 []).oracle.stateResp
      (Dev.mk ⟨fun _ => .dfuError, fun _ => some (0, .dfuIdle)⟩ 0 0 []).nState = .dfuError
    ∧ ((set_alternate_safe (Dev.mk ⟨fun _ => .dfuError, fun _ => some (0, .dfuIdle)⟩ 0 0 []) 2).1.log =
        [] ++ [.setAlternate 2, .getState, .clearStatus, .waitWhile .dfuError none]
      ∧ countClear
          (set_alternate_safe (Dev.mk ⟨fun _ => .dfuError, fun _ => some (0, .dfuIdle)⟩ 0 0 []) 2).1.log =
        countClear [] + 1) :=
  ⟨rfl, claim_C6.1 (Dev.mk ⟨fun _ => .dfuError, fun _ => some (0, .dfuIdle)⟩ 0 0 []) 2 rfl⟩

/-- C5: the erase loop handles the sectors in order; for each sector, after
the safe alternate selection, it issues the erase request at the sector's
address and a busy-wait on `DFU_DOWNLOAD_BUSY` with timeout
`len(data) / 32` — the planned sector's nominal size over 32; a timed-out
wait raises `TimeoutError`, a wait ending in any state other than
`DFU_DOWNLOAD_IDLE` raises an error carrying the observed status, and in
either case the run aborts at once: the returned device state is exactly the
failing sector's, so no erase (or any other request) is issued for any
later sector. -/
theorem claim_C5 :
    (∀ (d : Dev) (sec : PlannedSector) (d1 : Dev),
      set_alternate_safe d sec.alt = (d1, none) →
      ((d1.oracle.waitResp d1.nWait = none →
          erase_step d sec = (eraseIssued d1 sec, some .timeoutError))
        ∧ (∀ status, d1.oracle.waitResp d1.nWait = some status →
            status.2 ≠ .dfuDownloadIdle →
            erase_step d sec = (eraseIssued d1 sec, some (.protocolError status)))
        ∧ (∀ status, d1.oracle.waitResp d1.nWait = some status →
            status.2 = .dfuDownloadIdle →
            erase_step d sec = (eraseIssued d1 sec, none))))
    ∧ (∀ (d : Dev) (sec : PlannedSector) (rest : List PlannedSector) (d1 : Dev) (e : DfuError),
        erase_step d sec = (d1, some e) → erase d (sec :: rest) = (d1, some e))
    ∧ (∀ (d : Dev) (sec : PlannedSector) (rest : List PlannedSector) (d1 : Dev),
        erase_step d sec = (d1, none) → erase d (sec :: rest) = erase d1 rest) := by
  refine ⟨?_, ?_, ?_⟩
  · intro d sec d1 hsel
    refine ⟨?_, ?_, ?_⟩
    · intro hw
      simp only [erase_step, hsel, Dev.emit, Dev.wait_while_state, hw]
      simp [eraseIssued, List.append_assoc]
    · intro status hw hne
      simp only [erase_step, hsel, Dev.emit, Dev.wait_while_state, hw]
      rw [if_pos hne]
      simp [eraseIssued, List.append_assoc]
    · intro status hw heq
      simp only [erase_step, hsel, Dev.emit, Dev.wait_while_state, hw]
      rw [if_neg (by simp [heq])]
      simp [eraseIssued, List.append_assoc]
  · intro d sec rest d1 e hstep
    simp only [erase, hstep]
  · intro d sec rest d1 hstep
    simp only [erase, hstep]

/-- C5, witness: with an oracle whose first wait times out, erasing two
sectors aborts on the first, leaving exactly the commands of that sector in
the log. -/
theorem claim_C5_witness :
    set_alternate_safe (Dev.mk ⟨fun _ => .dfuIdle, fun _ => none⟩ 0 0 [])
        (PlannedSector.mk 0 0x08004000 (List.replicate 64 0)).alt =
      (Dev.mk ⟨fun _ => .dfuIdle, fun _ => none⟩ 1 0 [.setAlternate 0, .getState], none)
    ∧ (Dev.mk ⟨fun _ => .dfuIdle, fun _ => none⟩ 1 0
        [.setAlternate 0, .getState]).oracle.waitResp
        (Dev.mk ⟨fun _ => .dfuIdle, fun _ => none⟩ 1 0 [.setAlternate 0, .getState]).nWait = none
    ∧ erase_step (Dev.mk ⟨fun _ => .dfuIdle, fun _ => none⟩ 0 0 [])
        (PlannedSector.mk 0 0x08004000 (List.replicate 64 0)) =
      (eraseIssued (Dev.mk ⟨fun _ => .dfuIdle, fun _ => none⟩ 1 0 [.setAlternate 0, .getState])
        (PlannedSector.mk 0 0x08004000 (List.replicate 64 0)), some .timeoutError)
    ∧ erase (Dev.mk ⟨fun _ => .dfuIdle, fun _ => none⟩ 0 0 [])
        [PlannedSector.mk 0 0x08004000 (List.replicate 64 0),
         PlannedSector.mk 0 0x08008000 (List.replicate 64 0)] =
      (eraseIssued (Dev.mk ⟨fun _ => .dfuIdle, fun _ => none⟩ 1 0 [.setAlternate 0, .getState])
        (PlannedSector.mk 0 0x08004000 (List.replicate 64 0)), some .timeoutError) := by
  refine ⟨rfl, rfl, ?_, ?_⟩
  · exact (claim_C5.1 (Dev.mk ⟨fun _ => .dfuIdle, fun _ => none⟩ 0 0 [])
      (PlannedSector.mk 0 0x08004000 (List.replicate 64 0))
      (Dev.mk ⟨fun _ => .dfuIdle, fun _ => none⟩ 1 0 [.setAlternate 0, .getState]) rfl).1 rfl
  · exact claim_C5.2.1 (Dev.mk ⟨fun _ => .dfuIdle, fun _ => none⟩ 0 0 [])
      (PlannedSector.mk 0 0x08004000 (List.replicate 64 0))
      [PlannedSector.mk 0 0x08008000 (List.replicate 64 0)]
      (eraseIssued (Dev.mk ⟨fun _ => .dfuIdle, fun _ => none⟩ 1 0 [.setAlternate 0, .getState])
        (PlannedSector.mk 0 0x08004000 (List.replicate 64 0))) .timeoutError
      ((claim_C5.1 (Dev.mk ⟨fun _ => .dfuIdle, fun _ => none⟩ 0 0 [])
        (PlannedSector.mk 0 0x08004000 (List.replicate 64 0))
        (Dev.mk ⟨fun _ => .dfuIdle, fun _ => none⟩ 1 0 [.setAlternate 0, .getState]) rfl).1 rfl)

/-- The device state once the set-address request and its busy-wait have been
issued for one sector, starting from the state `d1` left by the alternate
selection. -/
def addrIssued (d1 : Dev) (sec : PlannedSector) : Dev :=
  { d1 with
    log := d1.log ++ [.setAddress sec.addr, .waitWhile .dfuDownloadBusy none],
    nWait := d1.nWait + 1 }

/-- The blocks of dfu.py line 91 concatenate back to the payload. -/
theorem toBlocks_flatten : ∀ data : List Nat, (toBlocks data).flatten = data := by
  intro data
  induction data using toBlocks.induct with
  | case1 => simp [toBlocks]
  | case2 x xs ih =>
    rw [toBlocks, List.flatten_cons, ih]
    exact List.take_append_drop _ _

/-- Every block is nonempty and holds at most `TRANSFER_SIZE` bytes. -/
theorem toBlocks_len : ∀ data : List Nat, ∀ b ∈ toBlocks data,
    b.length ≤ TRANSFER_SIZE ∧ b ≠ [] := by
  intro data
  induction data using toBlocks.induct with
  | case1 => intro b hb; simp [toBlocks] at hb
  | case2 x xs ih =>
    intro b hb
    rw [toBlocks] at hb
    rcases List.mem_cons.mp hb with h | h
    · subst h
      constructor
      · rw [List.length_take]
        exact min_le_left _ _
      · intro hnil
        have hlen := congrArg List.length hnil
        rw [List.length_take] at hlen
        simp [TRANSFER_SIZE] at hlen
    · exact ih b h

/-- A run of the block loop in which every consumed wait ends in
`DFU_DOWNLOAD_IDLE` writes every block in order, each write followed by its
busy-wait, and succeeds. -/
theorem flash_blocks_ok :
    ∀ (blocks : List (List Nat)) (d : Dev) (n : Nat),
      (∀ k, k < blocks.length →
        ∃ c, d.oracle.waitResp (d.nWait + k) = some (c, .dfuDownloadIdle)) →
      flash_blocks d blocks n =
        ({ d with
            log := d.log ++ writeLog n blocks,
            nWait := d.nWait + blocks.length }, none) := by
  intro blocks
  induction blocks with
  | nil =>
    intro d n _
    simp [flash_blocks, writeLog]
  | cons b bs ih =>
    intro d n h
    obtain ⟨c, hc⟩ := h 0 (by simp)
    rw [Nat.add_zero] at hc
    simp only [flash_blocks, Dev.emit, Dev.wait_while_state, hc]
    rw [if_neg (by simp)]
    refine Eq.trans (ih _ (n + 1) ?_) ?_
    · intro k hk
      obtain ⟨c2, hc2⟩ := h (k + 1) (by simpa using Nat.succ_lt_succ hk)
      refine ⟨c2, ?_⟩
      show d.oracle.waitResp (d.nWait + 1 + k) = _
      rw [show d.nWait + 1 + k = d.nWait + (k + 1) from by omega]
      exact hc2
    · simp [writeLog, List.append_assoc, Dev.mk.injEq]
      omega

/-- A run of the block loop whose `k`-th wait (all earlier ones idle) ends in
a state other than `DFU_DOWNLOAD_IDLE` stops right after that wait: exactly
the blocks up to index `k` have been written and the protocol error carries
the observed status. -/
theorem flash_blocks_abort :
    ∀ (blocks : List (List Nat)) (k : Nat) (d : Dev) (n : Nat) (status : Nat × DfuState),
      k < blocks.length →
      (∀ j, j < k → ∃ c, d.oracle.waitResp (d.nWait + j) = some (c, .dfuDownloadIdle)) →
      d.oracle.waitResp (d.nWait + k) = some status →
      status.2 ≠ .dfuDownloadIdle →
      flash_blocks d blocks n =
        ({ d with
            log := d.log ++ writeLog n (blocks.take (k + 1)),
            nWait := d.nWait + k + 1 }, some (.protocolError status)) := by
  intro blocks
  induction blocks with
  | nil =>
    intro k d n status hk _ _ _
    simp at hk
  | cons b bs ih =>
    intro k d n status hk hprev hst hne
    cases k with
    | zero =>
      rw [Nat.add_zero] at hst
      simp only [flash_blocks, Dev.emit, Dev.wait_while_state, hst]
      rw [if_pos hne]
      simp [writeLog, List.append_assoc]
    | succ k =>
      obtain ⟨c, hc⟩ := hprev 0 (by omega)
      rw [Nat.add_zero] at hc
      simp only [flash_blocks, Dev.emit, Dev.wait_while_state, hc]
      rw [if_neg (by simp)]
      refine Eq.trans (ih k _ (n + 1) status ?_ ?_ ?_ hne) ?_
      · exact Nat.lt_of_succ_lt_succ hk
      · intro j hj
        obtain ⟨c2, hc2⟩ := hprev (j + 1) (by omega)
        refine ⟨c2, ?_⟩
        show d.oracle.waitResp (d.nWait + 1 + j) = _
        rw [show d.nWait + 1 + j = d.nWait + (j + 1) from by omega]
        exact hc2
      · show d.oracle.waitResp (d.nWait + 1 + k) = _
        rw [show d.nWait + 1 + k = d.nWait + (k + 1) from by omega]
        exact hst
      · simp [writeLog, List.append_assoc, List.take_succ_cons, Dev.mk.injEq]
        omega

/-- C7: for each sector the flash loop selects the alternate, sets the
address, busy-waits to `DFU_DOWNLOAD_IDLE` (raising, with the observed
status, if it ends anywhere else), then splits the payload into consecutive
nonempty blocks of at most `TRANSFER_SIZE` (2048) bytes whose concatenation
is the payload and writes them sequentially with block numbers 0, 1, …, N-1,
each write immediately followed by a busy-wait; the first wait ending in a
state other than `DFU_DOWNLOAD_IDLE` raises an error carrying that status
and stops the run right there, so no further block — and no further
sector — is written. -/
theorem claim_C7 :
    (∀ data : List Nat,
      (toBlocks data).flatten = data
      ∧ ∀ b ∈ toBlocks data, b.length ≤ TRANSFER_SIZE ∧ b ≠ [])
    ∧ (∀ (d : Dev) (sec : PlannedSector) (d1 : Dev),
        set_alternate_safe d sec.alt = (d1, none) →
        ((∀ status, d1.oracle.waitResp d1.nWait = some status →
            status.2 = .dfuDownloadIdle →
            flash_step d sec = flash_blocks (addrIssued d1 sec) (toBlocks sec.data) 0)
          ∧ (∀ status, d1.oracle.waitResp d1.nWait = some status →
              status.2 ≠ .dfuDownloadIdle →
              flash_step d sec = (addrIssued d1 sec, some (.protocolError status)))))
    ∧ (∀ (blocks : List (List Nat)) (d : Dev) (n : Nat),
        (∀ k, k < blocks.length →
          ∃ c, d.oracle.waitResp (d.nWait + k) = some (c, .dfuDownloadIdle)) →
        flash_blocks d blocks n =
          ({ d with
              log := d.log ++ writeLog n blocks,
              nWait := d.nWait + blocks.length }, none))
    ∧ (∀ (blocks : List (List Nat)) (k : Nat) (d : Dev) (n : Nat) (status : Nat × DfuState),
        k < blocks.length →
        (∀ j, j < k → ∃ c, d.oracle.waitResp (d.nWait + j) = some (c, .dfuDownloadIdle)) →
        d.oracle.waitResp (d.nWait + k) = some status →
        status.2 ≠ .dfuDownloadIdle →
        flash_blocks d blocks n =
          ({ d with
              log := d.log ++ writeLog n (blocks.take (k + 1)),
              nWait := d.nWait + k + 1 }, some (.protocolError status)))
    ∧ (∀ (d : Dev) (sec : PlannedSector) (rest : List PlannedSector) (d1 : Dev) (e : DfuError),
        flash_step d sec = (d1, some e) → flash d (sec :: rest) = (d1, some e))
    ∧ (∀ (d : Dev) (sec : PlannedSector) (rest : List PlannedSector) (d1 : Dev),
        flash_step d sec = (d1, none) → flash d (sec :: rest) = flash d1 rest) := by
  refine ⟨fun data => ⟨toBlocks_flatten data, toBlocks_len data⟩, ?_, flash_blocks_ok,
    flash_blocks_abort, ?_, ?_⟩
  · intro d sec d1 hsel
    constructor
    · intro status hw heq
      simp only [flash_step, hsel, Dev.emit, Dev.wait_while_state, hw]
      rw [if_neg (by simp [heq])]
      congr 1
      simp [addrIssued, List.append_assoc]
    · intro status hw hne
      simp only [flash_step, hsel, Dev.emit, Dev.wait_while_state, hw]
      rw [if_pos hne]
      simp [addrIssued, List.append_assoc]
  · intro d sec rest d1 e hstep
    simp only [flash, hstep]
  · intro d sec rest d1 hstep
    simp only [flash, hstep]

/-- A concrete device whose every wait ends in `DFU_DOWNLOAD_IDLE`. -/
def devAllIdle : Dev := ⟨⟨fun _ => .dfuIdle, fun _ => some (0, .dfuDownloadIdle)⟩, 0, 0, []⟩

/-- C7, witness: a successful block-loop run over a 3000-byte payload (two
blocks: 2048 and 952 bytes). -/
theorem claim_C7_witness :
    (∀ k, k < (toBlocks (List.replicate 3000 7)).length →
      ∃ c, devAllIdle.oracle.waitResp (devAllIdle.nWait + k) = some (c, .dfuDownloadIdle))
    ∧ flash_blocks devAllIdle (toBlocks (List.replicate 3000 7)) 0 =
        ({ devAllIdle with
            log := devAllIdle.log ++ writeLog 0 (toBlocks (List.replicate 3000 7)),
            nWait := devAllIdle.nWait + (toBlocks (List.replicate 3000 7)).length }, none) :=
  ⟨fun _ _ => ⟨0, rfl⟩,
   claim_C7.2.2.1 (toBlocks (List.replicate 3000 7)) devAllIdle 0 (fun _ _ => ⟨0, rfl⟩)⟩

end Dfu
